import Mathlib

/-
  Shallow embedding of src/sources/main.cu (a CUDA vector-addition example).

  Doubles (`real_type`) are modelled by `FP`: a finite value carries an exact
  rational (arithmetic on finite values is modelled exactly), and the
  non-finite values (the two infinities and NaN) are explicit constructors.
  IEEE comparison semantics (`==`, `<=`) on these values is modelled by
  `fpBeq` and `fpLe`: NaN compares unequal to everything, including itself.
-/

namespace CudaExample

/-- Model of a `double` (`real_type`): a finite rational, an infinity with a
sign (`true` = negative), or NaN. -/
inductive FP where
  | fin : ℚ → FP
  | inf : Bool → FP
  | nan : FP
deriving DecidableEq, Repr

/-- Model of C `isfinite`. -/
def FP.isfinite : FP → Bool
  | .fin _ => true
  | _ => false

/-- Model of IEEE `==` on doubles: NaN is unequal to everything (itself
included); infinities are equal when they have the same sign. -/
def fpBeq : FP → FP → Bool
  | .fin x, .fin y => x == y
  | .inf s, .inf t => s == t
  | _, _ => false

/-- Model of C `fabs`. -/
def fpAbs : FP → FP
  | .fin x => .fin |x|
  | .inf _ => .inf false
  | .nan => .nan

/-- Model of IEEE subtraction `x - y` on doubles (finite arithmetic exact). -/
def fpSub : FP → FP → FP
  | .nan, _ => .nan
  | .fin _, .nan => .nan
  | .inf _, .nan => .nan
  | .fin x, .fin y => .fin (x - y)
  | .fin _, .inf s => .inf (!s)
  | .inf s, .fin _ => .inf s
  | .inf s, .inf t => if s = t then .nan else .inf s

/-- Model of IEEE multiplication `x * y` on doubles (finite arithmetic exact). -/
def fpMul : FP → FP → FP
  | .nan, _ => .nan
  | .fin _, .nan => .nan
  | .inf _, .nan => .nan
  | .fin x, .fin y => .fin (x * y)
  | .fin x, .inf s => if x = 0 then .nan else .inf (xor s (decide (x < 0)))
  | .inf s, .fin y => if y = 0 then .nan else .inf (xor s (decide (y < 0)))
  | .inf s, .inf t => .inf (xor s t)

/-- Model of IEEE `<=` on doubles: false whenever either side is NaN. -/
def fpLe : FP → FP → Bool
  | .nan, _ => false
  | .fin _, .nan => false
  | .inf _, .nan => false
  | .fin x, .fin y => decide (x ≤ y)
  | .fin _, .inf s => !s
  | .inf s, .fin _ => s
  | .inf s, .inf t => s || !t

/-- Embedding of `isClose` (main.cu lines 32-53): if both arguments are
finite, return true on direct equality, else compare `|x - y|` against the
absolute tolerance and the two relative tolerances; if either argument is
non-finite, return the direct IEEE equality `x == y`. -/
def isClose (x y rel_tol abs_tol : FP) : Bool :=
  if x.isfinite && y.isfinite then
    if fpBeq x y then
      true
    else
      let abs_diff := fpAbs (fpSub x y)
      fpLe abs_diff abs_tol
        || fpLe abs_diff (fpMul rel_tol (fpAbs x))
        || fpLe abs_diff (fpMul rel_tol (fpAbs y))
  else
    fpBeq x y

/-- Device memory: the three device-resident buffers passed to the kernel. -/
structure DevMem where
  a : List ℚ
  b : List ℚ
  c : List ℚ
deriving DecidableEq, Repr

/-- The global index `blockDim.x * blockIdx.x + threadIdx.x` computed by one
lane (main.cu line 24); the arithmetic is `unsigned`, hence the reduction
modulo `2 ^ 32`. -/
def globalIndex (blockDim blockIdx threadIdx : Nat) : Nat :=
  (blockDim * blockIdx + threadIdx) % 2 ^ 32

/-- Embedding of one lane of the `vectorAddition` kernel (main.cu lines
19-29): if the global index of the lane is below `count` it stores
`a[thread_id] + b[thread_id]` into `c[thread_id]`, otherwise it does nothing.
An access outside the bounds of a buffer is undefined behaviour and is
modelled by `none`. -/
def vectorAddition (blockDim blockIdx threadIdx count : Nat) (s : DevMem) :
    Option DevMem :=
  let thread_id := globalIndex blockDim blockIdx threadIdx
  if thread_id < count then
    match s.a.get? thread_id, s.b.get? thread_id with
    | some av, some bv =>
        if thread_id < s.c.length then
          some { s with c := s.c.set thread_id (av + bv) }
        else
          none
    | _, _ => none
  else
    some s

/-- Run a list of lanes, identified by `(blockIdx, threadIdx)` pairs, one
after the other (any order gives the same result since distinct lanes touch
distinct elements of `c`). -/
def runLanes (blockDim count : Nat) (ls : List (Nat × Nat)) (s : DevMem) :
    Option DevMem :=
  match ls with
  | [] => some s
  | p :: rest =>
      match vectorAddition blockDim p.1 p.2 count s with
      | none => none
      | some s1 => runLanes blockDim count rest s1

/-- All lanes of a launch with `bpg` blocks of `tpb` threads each. -/
def gridLanes (bpg tpb : Nat) : List (Nat × Nat) :=
  (List.range bpg).flatMap fun bid => (List.range tpb).map fun tid => (bid, tid)

/-- Embedding of the kernel launch
`vectorAddition <<<blocks_per_grid, threads_per_block>>> (...)`
(main.cu line 139): every lane of the grid executes once. -/
def launchVectorAddition (bpg tpb count : Nat) (s : DevMem) : Option DevMem :=
  runLanes tpb count (gridLanes bpg tpb) s

/-- `count` (main.cu line 59). -/
def count : Nat := 65536

/-- `threads_per_block` (main.cu line 136). -/
def threads_per_block : Nat := 256

/-- `blocks_per_grid = (count + threads_per_block - 1) / threads_per_block`
(main.cu line 137). -/
def blocks_per_grid : Nat :=
  (count + threads_per_block - 1) / threads_per_block

/-- The relative tolerance `1e-8` passed to `isClose` (main.cu line 161). -/
def val_rel_tol : ℚ := 1 / 10 ^ 8

/-- The absolute tolerance `1e-16` passed to `isClose` (main.cu line 161). -/
def val_abs_tol : ℚ := 1 / 10 ^ 16

/-- The validation loop (main.cu lines 157-170) over a list of indices:
the first index `i` whose `expected = host_a[i] + host_b[i]` and
`actual = host_c[i]` fail `isClose (expected, actual, 1e-8, 1e-16)` is
returned together with the expected and actual values; later indices are not
examined.  `none` means every index passed. -/
def firstFailure (a b c : List ℚ) : List Nat → Option (Nat × ℚ × ℚ)
  | [] => none
  | i :: rest =>
      let expected := a.getD i 0 + b.getD i 0
      let actual := c.getD i 0
      if isClose (.fin expected) (.fin actual) (.fin val_rel_tol)
          (.fin val_abs_tol) then
        firstFailure a b c rest
      else
        some (i, expected, actual)

/-- The validation phase: scan indices `0, 1, ..., n - 1` in increasing
order. -/
def validate (a b c : List ℚ) (n : Nat) : Option (Nat × ℚ × ℚ) :=
  firstFailure a b c (List.range n)

/-- `laneWrites blockDim ls j` holds when some lane in `ls` has global index
`j`, i.e. when index `j` is assigned to a lane of the launch. -/
def laneWrites (blockDim : Nat) (ls : List (Nat × Nat)) (j : Nat) : Prop :=
  ∃ p ∈ ls, globalIndex blockDim p.1 p.2 = j

instance (blockDim : Nat) (ls : List (Nat × Nat)) (j : Nat) :
    Decidable (laneWrites blockDim ls j) :=
  List.decidableBEx _ ls

/-- The three vectors `a`, `b`, `c`. -/
inductive VecName where
  | a | b | c
deriving DecidableEq, Repr

/-- One diagnostic line on standard error, modelled structurally: each
constructor corresponds to one `fprintf (stderr, ...)` in main.cu and
carries the data interpolated into the message. -/
inductive Diag where
  | hostAllocFail (v : VecName)
  | devAllocFail (v : VecName) (msg : String)
  | copyToDeviceFail (v : VecName) (msg : String)
  | kernelFail (msg : String)
  | copyToHostFail (msg : String)
  | validationFail (i : Nat) (expected actual : ℚ)
  | devFreeFail (v : VecName) (msg : String)
deriving DecidableEq, Repr

/-- One host-issued operation, recorded when `main` invokes it (whether or
not it succeeds). -/
inductive Event where
  | hostAlloc (v : VecName)
  | devAlloc (v : VecName)
  | copyToDevice (v : VecName)
  | kernelLaunch
  | copyToHost (v : VecName)
  | devFree (v : VecName)
  | hostFree (v : VecName)
deriving DecidableEq, Repr

/-- The environment: the outcome of each fallible external call made by
`main`, plus the (uninitialised) content the device allocator hands out for
vector `c`.  `none` means the call succeeds; `some msg` carries the device
error string (`cudaGetErrorString`). -/
structure Env where
  mallocA : Bool
  mallocB : Bool
  mallocC : Bool
  devAllocA : Option String
  devAllocB : Option String
  devAllocC : Option String
  copyA : Option String
  copyB : Option String
  kernelErr : Option String
  copyC : Option String
  freeA : Option String
  freeB : Option String
  freeC : Option String
  deviceCInit : List ℚ

/-- The observable outcome of a run of `main`: exit status, the lines
written to standard output, the diagnostics written to standard error, and
the trace of operations the host issued before exiting. -/
structure MainResult where
  exitCode : Nat
  stdout : List String
  stderr : List Diag
  trace : List Event
deriving DecidableEq, Repr

/-- Embedding of `main` (main.cu lines 56-203), parametrised by the outcome
environment and by the input generators (`sinSq i` models `sin(i) * sin(i)`,
`cosSq i` models `cos(i) * cos(i)`; their values are irrelevant to the
control flow).  Each step mirrors one statement of `main`, in source order;
every failure returns `EXIT_FAILURE` (1) with the corresponding single
diagnostic.  The exit code 2 marks the unreachable case of an out-of-bounds
device access inside the kernel (undefined behaviour in C). -/
def runMain (env : Env) (sinSq cosSq : Nat → ℚ) : MainResult :=
  let t := [Event.hostAlloc .a]
  if !env.mallocA then ⟨1, [], [.hostAllocFail .a], t⟩ else
  let t := t ++ [Event.hostAlloc .b]
  if !env.mallocB then ⟨1, [], [.hostAllocFail .b], t⟩ else
  let t := t ++ [Event.hostAlloc .c]
  if !env.mallocC then ⟨1, [], [.hostAllocFail .c], t⟩ else
  let t := t ++ [Event.devAlloc .a]
  match env.devAllocA with
  | some msg => ⟨1, [], [.devAllocFail .a msg], t⟩
  | none =>
  let t := t ++ [Event.devAlloc .b]
  match env.devAllocB with
  | some msg => ⟨1, [], [.devAllocFail .b msg], t⟩
  | none =>
  let t := t ++ [Event.devAlloc .c]
  match env.devAllocC with
  | some msg => ⟨1, [], [.devAllocFail .c msg], t⟩
  | none =>
  let host_a := (List.range count).map sinSq
  let host_b := (List.range count).map cosSq
  let t := t ++ [Event.copyToDevice .a]
  match env.copyA with
  | some msg => ⟨1, [], [.copyToDeviceFail .a msg], t⟩
  | none =>
  let device_a := host_a
  let t := t ++ [Event.copyToDevice .b]
  match env.copyB with
  | some msg => ⟨1, [], [.copyToDeviceFail .b msg], t⟩
  | none =>
  let device_b := host_b
  let t := t ++ [Event.kernelLaunch]
  match launchVectorAddition blocks_per_grid threads_per_block count
      ⟨device_a, device_b, env.deviceCInit⟩ with
  | none => ⟨2, [], [], t⟩
  | some dev =>
  match env.kernelErr with
  | some msg => ⟨1, [], [.kernelFail msg], t⟩
  | none =>
  let t := t ++ [Event.copyToHost .c]
  match env.copyC with
  | some msg => ⟨1, [], [.copyToHostFail msg], t⟩
  | none =>
  let host_c := dev.c
  match validate host_a host_b host_c count with
  | some (i, expected, actual) => ⟨1, [], [.validationFail i expected actual], t⟩
  | none =>
  let t := t ++ [Event.devFree .a]
  match env.freeA with
  | some msg => ⟨1, [], [.devFreeFail .a msg], t⟩
  | none =>
  let t := t ++ [Event.devFree .b]
  match env.freeB with
  | some msg => ⟨1, [], [.devFreeFail .b msg], t⟩
  | none =>
  let t := t ++ [Event.devFree .c]
  match env.freeC with
  | some msg => ⟨1, [], [.devFreeFail .c msg], t⟩
  | none =>
  let t := t ++ [Event.hostFree .a, Event.hostFree .b, Event.hostFree .c]
  ⟨0, ["Done."], [], t⟩

/-! ### Helper lemmas -/

/-- On finite arguments `isClose` computes: equal, or within the absolute or
one of the two relative tolerances. -/
theorem isClose_fin_eval (x y rt atol : ℚ) :
    isClose (.fin x) (.fin y) (.fin rt) (.fin atol) =
      (x == y || (decide (|x - y| ≤ atol) || decide (|x - y| ≤ rt * |x|)
        || decide (|x - y| ≤ rt * |y|))) := by
  by_cases h : x = y <;>
    simp [isClose, FP.isfinite, fpBeq, fpSub, fpAbs, fpMul, fpLe, h]

/-- A finite value is close to itself under any tolerances. -/
theorem isClose_fin_self (q : ℚ) (rt atol : FP) :
    isClose (.fin q) (.fin q) rt atol = true := by
  simp [isClose, FP.isfinite, fpBeq]

end CudaExample

namespace CudaExample

/-! ### Claims about the tolerance comparator -/

/-- Claim C1: for finite `x`, `y` and nonnegative tolerances, `isClose` is
true exactly when `x = y`, or `|x - y| ≤ abs_tol`, or `|x - y| ≤ rel_tol * |x|`,
or `|x - y| ≤ rel_tol * |y|`; in particular it is true when `x` and `y` are
identical, and false when `|x - y|` exceeds both the absolute tolerance and
`rel_tol * max (|x|, |y|)`. -/
theorem isClose_finite_characterization (x y rt atol : ℚ)
    (hr : 0 ≤ rt) (ha : 0 ≤ atol) :
    (isClose (.fin x) (.fin y) (.fin rt) (.fin atol) = true ↔
      (x = y ∨ |x - y| ≤ atol ∨ |x - y| ≤ rt * |x| ∨ |x - y| ≤ rt * |y|)) ∧
    (x = y → isClose (.fin x) (.fin y) (.fin rt) (.fin atol) = true) ∧
    (atol < |x - y| → rt * max |x| |y| < |x - y| →
      isClose (.fin x) (.fin y) (.fin rt) (.fin atol) = false) := by
  refine ⟨?_, ?_, ?_⟩
  · rw [isClose_fin_eval]
    simp [or_assoc]
  · intro h
    subst h
    exact isClose_fin_self x _ _
  · intro h1 h2
    have hne : x ≠ y := by
      intro he
      rw [he, sub_self, abs_zero] at h1
      exact absurd ha (not_le.mpr h1)
    have n1 : ¬ |x - y| ≤ atol := not_le.mpr h1
    have n2 : ¬ |x - y| ≤ rt * |x| := fun hle =>
      absurd (hle.trans (mul_le_mul_of_nonneg_left (le_max_left _ _) hr))
        (not_le.mpr h2)
    have n3 : ¬ |x - y| ≤ rt * |y| := fun hle =>
      absurd (hle.trans (mul_le_mul_of_nonneg_left (le_max_right _ _) hr))
        (not_le.mpr h2)
    rw [isClose_fin_eval]
    simp [hne, n1, n2, n3]

/-- Witness for C1 at `x = 0`, `y = 1`, `rel_tol = 0`, `abs_tol = 2`. -/
theorem isClose_finite_characterization_witness :
    (isClose (.fin 0) (.fin 1) (.fin 0) (.fin 2) = true ↔
      ((0 : ℚ) = 1 ∨ |(0 : ℚ) - 1| ≤ 2 ∨ |(0 : ℚ) - 1| ≤ 0 * |(0 : ℚ)|
        ∨ |(0 : ℚ) - 1| ≤ 0 * |(1 : ℚ)|)) ∧
    ((0 : ℚ) = 1 → isClose (.fin 0) (.fin 1) (.fin 0) (.fin 2) = true) ∧
    ((2 : ℚ) < |(0 : ℚ) - 1| → (0 : ℚ) * max |(0 : ℚ)| |(1 : ℚ)| < |(0 : ℚ) - 1| →
      isClose (.fin 0) (.fin 1) (.fin 0) (.fin 2) = false) :=
  isClose_finite_characterization 0 1 0 2 (by norm_num) (by norm_num)

/-- Claim C2 counterexample: at `rel_tol = abs_tol = 0` (both nonnegative),
`isClose (NaN, NaN)` evaluates to false, not true as claimed: the non-finite
branch returns the IEEE equality `x == y`, and NaN is unequal to itself. -/
theorem isClose_nan_nan_counterexample :
    isClose FP.nan FP.nan (FP.fin 0) (FP.fin 0) = false := rfl

/-- Claim C2 (amended): for nonnegative tolerances, `isClose (NaN, NaN)` is
false, `isClose (NaN, 1.0)` is false, `isClose (+inf, +inf)` is true; when
either argument is non-finite, `isClose` is true exactly when the two values
are equal under IEEE direct equality, under which NaN is unequal to every
value including itself. -/
theorem isClose_nonfinite_spec (rt atol : ℚ) (_hr : 0 ≤ rt) (_ha : 0 ≤ atol) :
    isClose FP.nan FP.nan (.fin rt) (.fin atol) = false ∧
    isClose FP.nan (.fin 1) (.fin rt) (.fin atol) = false ∧
    isClose (.inf false) (.inf false) (.fin rt) (.fin atol) = true ∧
    (∀ x y : FP, x.isfinite = false ∨ y.isfinite = false →
      (isClose x y (.fin rt) (.fin atol) = true ↔ fpBeq x y = true)) := by
  refine ⟨rfl, rfl, rfl, ?_⟩
  intro x y h
  rcases h with h | h <;> simp [isClose, h]

/-- Witness for the amended C2 at `rel_tol = abs_tol = 0`, instantiating the
non-finite case at `x = -inf`, `y = 2`. -/
theorem isClose_nonfinite_spec_witness :
    isClose FP.nan FP.nan (.fin 0) (.fin 0) = false ∧
    isClose FP.nan (.fin 1) (.fin 0) (.fin 0) = false ∧
    isClose (.inf false) (.inf false) (.fin 0) (.fin 0) = true ∧
    (isClose (.inf true) (.fin 2) (.fin 0) (.fin 0) = true ↔
      fpBeq (.inf true) (.fin 2) = true) := by
  have h := isClose_nonfinite_spec 0 0 le_rfl le_rfl
  exact ⟨h.1, h.2.1, h.2.2.1, h.2.2.2 (.inf true) (.fin 2) (Or.inl rfl)⟩

/-- Claim C9: `isClose` is symmetric in its first two arguments. -/
theorem isClose_symm (x y : FP) (rt atol : ℚ) (_hr : 0 ≤ rt) (_ha : 0 ≤ atol) :
    isClose x y (.fin rt) (.fin atol) = isClose y x (.fin rt) (.fin atol) := by
  cases x with
  | fin q =>
      cases y with
      | fin r =>
          rw [isClose_fin_eval, isClose_fin_eval, Bool.eq_iff_iff]
          simp only [Bool.or_eq_true, beq_iff_eq, decide_eq_true_eq,
            abs_sub_comm q r]
          tauto
      | inf t => rfl
      | nan => rfl
  | inf s =>
      cases y with
      | fin r => rfl
      | inf t => cases s <;> cases t <;> rfl
      | nan => rfl
  | nan =>
      cases y <;> rfl

/-- Witness for C9 at `x = 1`, `y = +inf`, `rel_tol = 0`, `abs_tol = 1`. -/
theorem isClose_symm_witness :
    isClose (.fin 1) (.inf false) (.fin 0) (.fin 1) =
      isClose (.inf false) (.fin 1) (.fin 0) (.fin 1) :=
  isClose_symm (.fin 1) (.inf false) 0 1 le_rfl (by norm_num)

/-! ### Kernel lemmas -/

theorem laneWrites_nil (blockDim j : Nat) : ¬ laneWrites blockDim [] j := by
  rintro ⟨p, hp, -⟩
  exact List.not_mem_nil p hp

theorem laneWrites_cons (blockDim : Nat) (p : Nat × Nat)
    (rest : List (Nat × Nat)) (j : Nat) :
    laneWrites blockDim (p :: rest) j ↔
      globalIndex blockDim p.1 p.2 = j ∨ laneWrites blockDim rest j := by
  simp [laneWrites]

/-- An in-range lane stores `a[g] + b[g]` into `c[g]`. -/
theorem vectorAddition_in_range (blockDim blockIdx threadIdx cnt : Nat)
    (s : DevMem) (ha : cnt ≤ s.a.length) (hb : cnt ≤ s.b.length)
    (hc : cnt ≤ s.c.length) (h : globalIndex blockDim blockIdx threadIdx < cnt) :
    vectorAddition blockDim blockIdx threadIdx cnt s =
      some { s with c := (s.c.set (globalIndex blockDim blockIdx threadIdx)
        (s.a.getD (globalIndex blockDim blockIdx threadIdx) 0
          + s.b.getD (globalIndex blockDim blockIdx threadIdx) 0)) } := by
  have hga : s.a.get? (globalIndex blockDim blockIdx threadIdx) =
      some (s.a.getD (globalIndex blockDim blockIdx threadIdx) 0) := by
    rw [List.get?_eq_getElem?, List.getElem?_eq_getElem (by omega),
      List.getD_eq_getElem?_getD, List.getElem?_eq_getElem (by omega)]
    rfl
  have hgb : s.b.get? (globalIndex blockDim blockIdx threadIdx) =
      some (s.b.getD (globalIndex blockDim blockIdx threadIdx) 0) := by
    rw [List.get?_eq_getElem?, List.getElem?_eq_getElem (by omega),
      List.getD_eq_getElem?_getD, List.getElem?_eq_getElem (by omega)]
    rfl
  unfold vectorAddition
  rw [if_pos h, hga, hgb]
  simp only []
  rw [if_pos (by omega)]

/-- An out-of-range lane leaves the state untouched. -/
theorem vectorAddition_out_of_range (blockDim blockIdx threadIdx cnt : Nat)
    (s : DevMem) (h : cnt ≤ globalIndex blockDim blockIdx threadIdx) :
    vectorAddition blockDim blockIdx threadIdx cnt s = some s := by
  unfold vectorAddition
  rw [if_neg (by omega)]

/-- Running a list of lanes on buffers of length at least `cnt` never goes
out of bounds, never touches `a` or `b`, and writes `a[j] + b[j]` to exactly
the positions `j < cnt` covered by some lane. -/
theorem runLanes_spec (blockDim cnt : Nat) (ls : List (Nat × Nat)) (s : DevMem)
    (ha : cnt ≤ s.a.length) (hb : cnt ≤ s.b.length) (hc : cnt ≤ s.c.length) :
    ∃ s1, runLanes blockDim cnt ls s = some s1 ∧
      s1.a = s.a ∧ s1.b = s.b ∧ s1.c.length = s.c.length ∧
      ∀ j, s1.c.getD j 0 =
        if j < cnt ∧ laneWrites blockDim ls j
        then s.a.getD j 0 + s.b.getD j 0
        else s.c.getD j 0 := by
  induction ls generalizing s with
  | nil =>
      refine ⟨s, rfl, rfl, rfl, rfl, ?_⟩
      intro j
      rw [if_neg (fun hj => laneWrites_nil blockDim j hj.2)]
  | cons p rest ih =>
      by_cases hg : globalIndex blockDim p.1 p.2 < cnt
      · have hstep := vectorAddition_in_range blockDim p.1 p.2 cnt s ha hb hc hg
        obtain ⟨s2, hrun, h2a, h2b, h2len, h2c⟩ :=
          ih { s with c := (s.c.set (globalIndex blockDim p.1 p.2)
                (s.a.getD (globalIndex blockDim p.1 p.2) 0
                  + s.b.getD (globalIndex blockDim p.1 p.2) 0)) }
            ha hb (by simpa using hc)
        refine ⟨s2, ?_, h2a, h2b, by simpa using h2len, ?_⟩
        · show (match vectorAddition blockDim p.1 p.2 cnt s with
            | none => none
            | some s1 => runLanes blockDim cnt rest s1) = some s2
          rw [hstep]
          exact hrun
        · intro j
          rw [h2c j]
          by_cases hjr : j < cnt ∧ laneWrites blockDim rest j
          · rw [if_pos hjr,
              if_pos ⟨hjr.1, (laneWrites_cons _ _ _ _).mpr (Or.inr hjr.2)⟩]
          · rw [if_neg hjr]
            by_cases hjg : j = globalIndex blockDim p.1 p.2
            · subst hjg
              rw [if_pos ⟨hg, (laneWrites_cons _ _ _ _).mpr (Or.inl rfl)⟩]
              show (s.c.set (globalIndex blockDim p.1 p.2) _).getD
                (globalIndex blockDim p.1 p.2) 0 = _
              rw [List.getD_eq_getElem?_getD, List.getElem?_set_self (by omega)]
              rfl
            · rw [if_neg (fun hcons => by
                rcases (laneWrites_cons _ _ _ _).mp hcons.2 with h | h
                · exact hjg h.symm
                · exact hjr ⟨hcons.1, h⟩)]
              show (s.c.set (globalIndex blockDim p.1 p.2) _).getD j 0 = _
              rw [List.getD_eq_getElem?_getD,
                List.getElem?_set_ne (fun he => hjg he.symm),
                ← List.getD_eq_getElem?_getD]
      · have hstep := vectorAddition_out_of_range blockDim p.1 p.2 cnt s
          (by omega)
        obtain ⟨s2, hrun, h2a, h2b, h2len, h2c⟩ := ih s ha hb hc
        refine ⟨s2, ?_, h2a, h2b, h2len, ?_⟩
        · show (match vectorAddition blockDim p.1 p.2 cnt s with
            | none => none
            | some s1 => runLanes blockDim cnt rest s1) = some s2
          rw [hstep]
          exact hrun
        · intro j
          rw [h2c j]
          by_cases hj2 : j < cnt ∧ laneWrites blockDim (p :: rest) j
          · rcases (laneWrites_cons _ _ _ _).mp hj2.2 with h | h
            · have : globalIndex blockDim p.1 p.2 < cnt := by
                rw [h]; exact hj2.1
              omega
            · rw [if_pos ⟨hj2.1, h⟩, if_pos hj2]
          · rw [if_neg (fun hr =>
                hj2 ⟨hr.1, (laneWrites_cons _ _ _ _).mpr (Or.inr hr.2)⟩),
              if_neg hj2]

theorem gridLanes_mem (bpg tpb bid tid : Nat) (hb : bid < bpg)
    (ht : tid < tpb) : (bid, tid) ∈ gridLanes bpg tpb := by
  unfold gridLanes
  rw [List.mem_flatMap]
  exact ⟨bid, List.mem_range.mpr hb,
    List.mem_map.mpr ⟨tid, List.mem_range.mpr ht, rfl⟩⟩

/-- Every index below `count` is covered by some lane of the configured
grid. -/
theorem gridLanes_covers (j : Nat) (hj : j < count) :
    laneWrites threads_per_block
      (gridLanes blocks_per_grid threads_per_block) j := by
  have hj' : j < 65536 := hj
  have hdiv : j / threads_per_block < blocks_per_grid := by
    show j / 256 < 256
    omega
  have hmod : j % threads_per_block < threads_per_block := Nat.mod_lt _ (by
    show 0 < 256
    omega)
  refine ⟨(j / threads_per_block, j % threads_per_block),
    gridLanes_mem _ _ _ _ hdiv hmod, ?_⟩
  show (threads_per_block * (j / threads_per_block)
    + j % threads_per_block) % 2 ^ 32 = j
  have h1 : threads_per_block * (j / threads_per_block)
      + j % threads_per_block = j := Nat.div_add_mod j threads_per_block
  rw [h1]
  have h32 : (2 : ℕ) ^ 32 = 4294967296 := by norm_num
  rw [h32]
  omega

/-- The full launch on buffers of length at least `count` succeeds and
computes `c[j] = a[j] + b[j]` for every `j < count`, leaving `a` and `b`
untouched. -/
theorem launch_result (a b c : List ℚ)
    (ha : count ≤ a.length) (hb : count ≤ b.length) (hc : count ≤ c.length) :
    ∃ s1, launchVectorAddition blocks_per_grid threads_per_block count
        ⟨a, b, c⟩ = some s1 ∧
      s1.a = a ∧ s1.b = b ∧ s1.c.length = c.length ∧
      ∀ j < count, s1.c.getD j 0 = a.getD j 0 + b.getD j 0 := by
  obtain ⟨s1, hrun, h1a, h1b, h1len, h1c⟩ :=
    runLanes_spec threads_per_block count
      (gridLanes blocks_per_grid threads_per_block) ⟨a, b, c⟩ ha hb hc
  refine ⟨s1, hrun, h1a, h1b, h1len, ?_⟩
  intro j hj
  rw [h1c j, if_pos ⟨hj, gridLanes_covers j hj⟩]

/-! ### Claims about the kernel -/

/-- Claim C3: a lane whose global index is below `count` stores
`a[index] + b[index]` into `c[index]`; a lane whose global index is at least
`count` performs no operation; in both cases no access is out of bounds
(the lane never evaluates to `none`) when every buffer holds at least
`count` elements. -/
theorem vectorAddition_lane_spec (blockDim blockIdx threadIdx cnt : Nat)
    (s : DevMem) (ha : cnt ≤ s.a.length) (hb : cnt ≤ s.b.length)
    (hc : cnt ≤ s.c.length) :
    (globalIndex blockDim blockIdx threadIdx < cnt →
      vectorAddition blockDim blockIdx threadIdx cnt s =
        some { s with c := (s.c.set (globalIndex blockDim blockIdx threadIdx)
          (s.a.getD (globalIndex blockDim blockIdx threadIdx) 0
            + s.b.getD (globalIndex blockDim blockIdx threadIdx) 0)) }) ∧
    (cnt ≤ globalIndex blockDim blockIdx threadIdx →
      vectorAddition blockDim blockIdx threadIdx cnt s = some s) ∧
    vectorAddition blockDim blockIdx threadIdx cnt s ≠ none := by
  refine ⟨vectorAddition_in_range blockDim blockIdx threadIdx cnt s ha hb hc,
    vectorAddition_out_of_range blockDim blockIdx threadIdx cnt s, ?_⟩
  by_cases hg : globalIndex blockDim blockIdx threadIdx < cnt
  · rw [vectorAddition_in_range blockDim blockIdx threadIdx cnt s ha hb hc hg]
    simp
  · rw [vectorAddition_out_of_range blockDim blockIdx threadIdx cnt s
      (by omega)]
    simp

/-- Witness for C3: a 2-wide block layout on 3-element buffers; lane
`(1, 0)` has global index 2 and writes `c[2]`, lane `(1, 1)` has global
index 3 and is a no-op. -/
theorem vectorAddition_lane_spec_witness :
    (globalIndex 2 1 0 < 3 →
      vectorAddition 2 1 0 3 ⟨[1, 2, 3], [10, 20, 30], [0, 0, 0]⟩ =
        some { (⟨[1, 2, 3], [10, 20, 30], [0, 0, 0]⟩ : DevMem) with
          c := (([0, 0, 0] : List ℚ).set (globalIndex 2 1 0)
            (([1, 2, 3] : List ℚ).getD (globalIndex 2 1 0) 0
              + ([10, 20, 30] : List ℚ).getD (globalIndex 2 1 0) 0)) }) ∧
    (3 ≤ globalIndex 2 1 0 →
      vectorAddition 2 1 0 3 ⟨[1, 2, 3], [10, 20, 30], [0, 0, 0]⟩ =
        some ⟨[1, 2, 3], [10, 20, 30], [0, 0, 0]⟩) ∧
    vectorAddition 2 1 0 3 ⟨[1, 2, 3], [10, 20, 30], [0, 0, 0]⟩ ≠ none :=
  vectorAddition_lane_spec 2 1 0 3 ⟨[1, 2, 3], [10, 20, 30], [0, 0, 0]⟩
    (by simp) (by simp) (by simp)

/-- Claim C10: a lane never modifies `a` or `b`, leaves every element of `c`
other than the one at its own global index unchanged, and when its global
index is at least `count` leaves `c` entirely unchanged. -/
theorem vectorAddition_frame (blockDim blockIdx threadIdx cnt : Nat)
    (s s1 : DevMem)
    (h : vectorAddition blockDim blockIdx threadIdx cnt s = some s1) :
    s1.a = s.a ∧ s1.b = s.b ∧
    (∀ j, j ≠ globalIndex blockDim blockIdx threadIdx →
      s1.c.get? j = s.c.get? j) ∧
    (cnt ≤ globalIndex blockDim blockIdx threadIdx → s1.c = s.c) := by
  unfold vectorAddition at h
  by_cases hg : globalIndex blockDim blockIdx threadIdx < cnt
  · rw [if_pos hg] at h
    cases hA : s.a.get? (globalIndex blockDim blockIdx threadIdx) with
    | none =>
        rw [hA] at h
        exact Option.noConfusion h
    | some av =>
        rw [hA] at h
        cases hB : s.b.get? (globalIndex blockDim blockIdx threadIdx) with
        | none =>
            rw [hB] at h
            exact Option.noConfusion h
        | some bv =>
            rw [hB] at h
            replace h : (if globalIndex blockDim blockIdx threadIdx <
                  s.c.length then
                some { s with c := (s.c.set
                  (globalIndex blockDim blockIdx threadIdx) (av + bv)) }
              else none) = some s1 := h
            by_cases hcl : globalIndex blockDim blockIdx threadIdx < s.c.length
            · rw [if_pos hcl] at h
              have hs := Option.some.inj h
              subst hs
              refine ⟨rfl, rfl, ?_, ?_⟩
              · intro j hj
                show (s.c.set _ _).get? j = s.c.get? j
                rw [List.get?_eq_getElem?, List.get?_eq_getElem?,
                  List.getElem?_set_ne (Ne.symm hj)]
              · intro hge
                omega
            · rw [if_neg hcl] at h
              exact Option.noConfusion h
  · rw [if_neg hg] at h
    have hs := Option.some.inj h
    subst hs
    exact ⟨rfl, rfl, fun j _ => rfl, fun _ => rfl⟩

/-- Witness for C10: the in-range lane `(1, 0)` of a 2-wide block on
3-element buffers. -/
theorem vectorAddition_frame_witness :
    ({ (⟨[1, 2, 3], [10, 20, 30], [0, 0, 0]⟩ : DevMem) with
        c := (([0, 0, 0] : List ℚ).set (globalIndex 2 1 0)
          (([1, 2, 3] : List ℚ).getD (globalIndex 2 1 0) 0
            + ([10, 20, 30] : List ℚ).getD (globalIndex 2 1 0) 0)) }).a =
        (⟨[1, 2, 3], [10, 20, 30], [0, 0, 0]⟩ : DevMem).a ∧
    ({ (⟨[1, 2, 3], [10, 20, 30], [0, 0, 0]⟩ : DevMem) with
        c := (([0, 0, 0] : List ℚ).set (globalIndex 2 1 0)
          (([1, 2, 3] : List ℚ).getD (globalIndex 2 1 0) 0
            + ([10, 20, 30] : List ℚ).getD (globalIndex 2 1 0) 0)) }).b =
        (⟨[1, 2, 3], [10, 20, 30], [0, 0, 0]⟩ : DevMem).b ∧
    (∀ j, j ≠ globalIndex 2 1 0 →
      ({ (⟨[1, 2, 3], [10, 20, 30], [0, 0, 0]⟩ : DevMem) with
          c := (([0, 0, 0] : List ℚ).set (globalIndex 2 1 0)
            (([1, 2, 3] : List ℚ).getD (globalIndex 2 1 0) 0
              + ([10, 20, 30] : List ℚ).getD (globalIndex 2 1 0) 0)) }).c.get?
          j = (⟨[1, 2, 3], [10, 20, 30], [0, 0, 0]⟩ : DevMem).c.get? j) ∧
    (3 ≤ globalIndex 2 1 0 →
      ({ (⟨[1, 2, 3], [10, 20, 30], [0, 0, 0]⟩ : DevMem) with
          c := (([0, 0, 0] : List ℚ).set (globalIndex 2 1 0)
            (([1, 2, 3] : List ℚ).getD (globalIndex 2 1 0) 0
              + ([10, 20, 30] : List ℚ).getD (globalIndex 2 1 0) 0)) }).c =
        (⟨[1, 2, 3], [10, 20, 30], [0, 0, 0]⟩ : DevMem).c) :=
  vectorAddition_frame 2 1 0 3 ⟨[1, 2, 3], [10, 20, 30], [0, 0, 0]⟩ _
    (vectorAddition_in_range 2 1 0 3 ⟨[1, 2, 3], [10, 20, 30], [0, 0, 0]⟩
      (by simp) (by simp) (by simp) (by decide))

/-- Claim C4: with `count = 65536` and 256 threads per block, the ceiling
division yields a grid with at least `count` lanes, distinct lanes have
distinct global indices, and the launch on `count`-element buffers succeeds
with `c[i] = a[i] + b[i]` for every `i < count`. -/
theorem launch_configuration_covers (a b c : List ℚ)
    (ha : a.length = count) (hb : b.length = count) (hc : c.length = count) :
    count ≤ blocks_per_grid * threads_per_block ∧
    (∀ b1 t1 b2 t2, b1 < blocks_per_grid → t1 < threads_per_block →
      b2 < blocks_per_grid → t2 < threads_per_block →
      globalIndex threads_per_block b1 t1 =
        globalIndex threads_per_block b2 t2 →
      b1 = b2 ∧ t1 = t2) ∧
    (∃ s1, launchVectorAddition blocks_per_grid threads_per_block count
        ⟨a, b, c⟩ = some s1 ∧
      ∀ i < count, s1.c.getD i 0 = a.getD i 0 + b.getD i 0) := by
  refine ⟨by decide, ?_, ?_⟩
  · intro b1 t1 b2 t2 hb1 ht1 hb2 ht2 heq
    have hb1' : b1 < 256 := hb1
    have ht1' : t1 < 256 := ht1
    have hb2' : b2 < 256 := hb2
    have ht2' : t2 < 256 := ht2
    have heq' : (256 * b1 + t1) % 2 ^ 32 = (256 * b2 + t2) % 2 ^ 32 := heq
    have h32 : (2 : ℕ) ^ 32 = 4294967296 := by norm_num
    rw [h32] at heq'
    omega
  · obtain ⟨s1, hrun, -, -, -, h1c⟩ :=
      launch_result a b c (le_of_eq ha.symm) (le_of_eq hb.symm)
        (le_of_eq hc.symm)
    exact ⟨s1, hrun, h1c⟩

/-- Witness for C4 on concrete 65536-element buffers. -/
theorem launch_configuration_covers_witness :
    count ≤ blocks_per_grid * threads_per_block ∧
    (∀ b1 t1 b2 t2, b1 < blocks_per_grid → t1 < threads_per_block →
      b2 < blocks_per_grid → t2 < threads_per_block →
      globalIndex threads_per_block b1 t1 =
        globalIndex threads_per_block b2 t2 →
      b1 = b2 ∧ t1 = t2) ∧
    (∃ s1, launchVectorAddition blocks_per_grid threads_per_block count
        ⟨List.replicate count 1, List.replicate count 2,
          List.replicate count 0⟩ = some s1 ∧
      ∀ i < count, s1.c.getD i 0 =
        (List.replicate count (1 : ℚ)).getD i 0
          + (List.replicate count (2 : ℚ)).getD i 0) :=
  launch_configuration_covers (List.replicate count 1)
    (List.replicate count 2) (List.replicate count 0)
    (by simp) (by simp) (by simp)

/-! ### Validation lemmas -/

theorem firstFailure_eq_none_iff (a b c : List ℚ) (ls : List Nat) :
    firstFailure a b c ls = none ↔
      ∀ i ∈ ls, isClose (.fin (a.getD i 0 + b.getD i 0)) (.fin (c.getD i 0))
        (.fin val_rel_tol) (.fin val_abs_tol) = true := by
  induction ls with
  | nil => simp [firstFailure]
  | cons i rest ih =>
      by_cases h : isClose (.fin (a.getD i 0 + b.getD i 0)) (.fin (c.getD i 0))
          (.fin val_rel_tol) (.fin val_abs_tol) = true
      · simp only [firstFailure, if_pos h, ih]
        constructor
        · intro hall j hj
          rcases List.mem_cons.mp hj with rfl | hj
          · exact h
          · exact hall j hj
        · intro hall j hj
          exact hall j (List.mem_cons_of_mem i hj)
      · simp only [firstFailure, if_neg h]
        constructor
        · intro hsome
          exact Option.noConfusion hsome
        · intro hall
          exact absurd (hall i (List.mem_cons_self i rest)) h

theorem firstFailure_append (a b c : List ℚ) (ls1 ls2 : List Nat) :
    firstFailure a b c (ls1 ++ ls2) =
      match firstFailure a b c ls1 with
      | some r => some r
      | none => firstFailure a b c ls2 := by
  induction ls1 with
  | nil => simp [firstFailure]
  | cons i rest ih =>
      by_cases h : isClose (.fin (a.getD i 0 + b.getD i 0)) (.fin (c.getD i 0))
          (.fin val_rel_tol) (.fin val_abs_tol) = true
      · simp only [List.cons_append, firstFailure, if_pos h]
        exact ih
      · simp only [List.cons_append, firstFailure, if_neg h]

theorem validate_eq_none_iff (a b c : List ℚ) (n : Nat) :
    validate a b c n = none ↔
      ∀ i < n, isClose (.fin (a.getD i 0 + b.getD i 0)) (.fin (c.getD i 0))
        (.fin val_rel_tol) (.fin val_abs_tol) = true := by
  unfold validate
  rw [firstFailure_eq_none_iff]
  constructor
  · intro hall i hi
    exact hall i (List.mem_range.mpr hi)
  · intro hall i hi
    exact hall i (List.mem_range.mp hi)

theorem validate_eq_some_spec (a b c : List ℚ) (n i : Nat) (e ac : ℚ)
    (h : validate a b c n = some (i, e, ac)) :
    i < n ∧ e = a.getD i 0 + b.getD i 0 ∧ ac = c.getD i 0 ∧
    isClose (.fin (a.getD i 0 + b.getD i 0)) (.fin (c.getD i 0))
      (.fin val_rel_tol) (.fin val_abs_tol) = false ∧
    ∀ j < i, isClose (.fin (a.getD j 0 + b.getD j 0)) (.fin (c.getD j 0))
      (.fin val_rel_tol) (.fin val_abs_tol) = true := by
  induction n with
  | zero =>
      rw [show validate a b c 0 = none from rfl] at h
      exact Option.noConfusion h
  | succ n ih =>
      unfold validate at h
      rw [List.range_succ, firstFailure_append] at h
      cases hfn : firstFailure a b c (List.range n) with
      | some r =>
          rw [hfn] at h
          replace h : some r = some (i, e, ac) := h
          rw [Option.some.inj h] at hfn
          obtain ⟨h1, h2, h3, h4, h5⟩ := ih hfn
          exact ⟨Nat.lt_succ_of_lt h1, h2, h3, h4, h5⟩
      | none =>
          rw [hfn] at h
          replace h : firstFailure a b c [n] = some (i, e, ac) := h
          by_cases hp : isClose (.fin (a.getD n 0 + b.getD n 0))
              (.fin (c.getD n 0)) (.fin val_rel_tol) (.fin val_abs_tol) = true
          · rw [show firstFailure a b c [n] = none by
              simp only [firstFailure, if_pos hp]] at h
            exact Option.noConfusion h
          · rw [show firstFailure a b c [n] =
                some (n, a.getD n 0 + b.getD n 0, c.getD n 0) by
              simp only [firstFailure, if_neg hp]] at h
            have hinj := Option.some.inj h
            injection hinj with hn hrest
            injection hrest with he hac
            subst hn
            subst he
            subst hac
            refine ⟨Nat.lt_succ_self _, rfl, rfl,
              Bool.eq_false_iff.mpr hp, ?_⟩
            intro j hj
            exact (firstFailure_eq_none_iff a b c (List.range _)).mp hfn j
              (List.mem_range.mpr hj)

/-! ### Claim about the validation phase -/

/-- Claim C5: the validation phase scans indices `0 .. n - 1` in increasing
order with `isClose (a[i] + b[i], c[i], 1e-8, 1e-16)`; it reports `none`
exactly when every index passes, and any reported failure `(i, e, ac)` is
the first failing index (every smaller index passes) together with the
expected value `a[i] + b[i]` and the actual value `c[i]`; no later index is
examined, and `main` maps such a report to a single `validationFail`
diagnostic and a non-zero exit. -/
theorem validate_first_failure (a b c : List ℚ) (n : Nat) :
    (validate a b c n = none ↔
      ∀ i < n, isClose (.fin (a.getD i 0 + b.getD i 0)) (.fin (c.getD i 0))
        (.fin val_rel_tol) (.fin val_abs_tol) = true) ∧
    (∀ i e ac, validate a b c n = some (i, e, ac) →
      i < n ∧ e = a.getD i 0 + b.getD i 0 ∧ ac = c.getD i 0 ∧
      isClose (.fin (a.getD i 0 + b.getD i 0)) (.fin (c.getD i 0))
        (.fin val_rel_tol) (.fin val_abs_tol) = false ∧
      ∀ j < i, isClose (.fin (a.getD j 0 + b.getD j 0)) (.fin (c.getD j 0))
        (.fin val_rel_tol) (.fin val_abs_tol) = true) :=
  ⟨validate_eq_none_iff a b c n,
   fun i e ac h => validate_eq_some_spec a b c n i e ac h⟩

/-- Witness for C5: on `a = [0, 100]`, `b = [0, 0]`, `c = [0, 0]` the first
(and only) failing index is 1, with expected value 100 and actual value 0. -/
theorem validate_first_failure_witness :
    1 < 2 ∧
    (100 : ℚ) = ([0, 100] : List ℚ).getD 1 0 + ([0, 0] : List ℚ).getD 1 0 ∧
    (0 : ℚ) = ([0, 0] : List ℚ).getD 1 0 ∧
    isClose (.fin (([0, 100] : List ℚ).getD 1 0 + ([0, 0] : List ℚ).getD 1 0))
      (.fin (([0, 0] : List ℚ).getD 1 0))
      (.fin val_rel_tol) (.fin val_abs_tol) = false ∧
    (∀ j < 1, isClose
      (.fin (([0, 100] : List ℚ).getD j 0 + ([0, 0] : List ℚ).getD j 0))
      (.fin (([0, 0] : List ℚ).getD j 0))
      (.fin val_rel_tol) (.fin val_abs_tol) = true) :=
  (validate_first_failure [0, 100] [0, 0] [0, 0] 2).2 1 100 0 (by
    norm_num [validate, firstFailure, List.range_succ, isClose, FP.isfinite,
      fpBeq, fpSub, fpAbs, fpMul, fpLe, val_rel_tol, val_abs_tol])

/-! ### Claims about the orchestration in main -/

/-- Claim C6: a fully successful run — every external call succeeds — exits
with status 0, writes exactly the line "Done." to standard output and
nothing to standard error; a run in which any call fails (host allocation,
device allocation, transfer, kernel, or device free) exits with a non-zero
status, writes nothing to standard output and exactly one diagnostic to
standard error. -/
theorem main_output_exit (env : Env) (sinSq cosSq : Nat → ℚ)
    (hlen : env.deviceCInit.length = count) :
    ((env.mallocA = true ∧ env.mallocB = true ∧ env.mallocC = true ∧
      env.devAllocA = none ∧ env.devAllocB = none ∧ env.devAllocC = none ∧
      env.copyA = none ∧ env.copyB = none ∧ env.kernelErr = none ∧
      env.copyC = none ∧ env.freeA = none ∧ env.freeB = none ∧
      env.freeC = none) →
      ((runMain env sinSq cosSq).exitCode = 0 ∧
        (runMain env sinSq cosSq).stdout = ["Done."] ∧
        (runMain env sinSq cosSq).stderr = [])) ∧
    ((env.mallocA = false ∨ env.mallocB = false ∨ env.mallocC = false ∨
      env.devAllocA ≠ none ∨ env.devAllocB ≠ none ∨ env.devAllocC ≠ none ∨
      env.copyA ≠ none ∨ env.copyB ≠ none ∨ env.kernelErr ≠ none ∨
      env.copyC ≠ none ∨ env.freeA ≠ none ∨ env.freeB ≠ none ∨
      env.freeC ≠ none) →
      ((runMain env sinSq cosSq).exitCode ≠ 0 ∧
        (runMain env sinSq cosSq).stdout = [] ∧
        (runMain env sinSq cosSq).stderr.length = 1)) := by
  obtain ⟨mA, mB, mC, dA, dB, dC, cA, cB, kE, cC, fA, fB, fC, dCI⟩ := env
  replace hlen : dCI.length = count := hlen
  cases mA with
  | false => exact ⟨fun h => by simp at h, fun _ => by simp [runMain]⟩
  | true =>
  cases mB with
  | false => exact ⟨fun h => by simp at h, fun _ => by simp [runMain]⟩
  | true =>
  cases mC with
  | false => exact ⟨fun h => by simp at h, fun _ => by simp [runMain]⟩
  | true =>
  cases dA with
  | some msg => exact ⟨fun h => by simp at h, fun _ => by simp [runMain]⟩
  | none =>
  cases dB with
  | some msg => exact ⟨fun h => by simp at h, fun _ => by simp [runMain]⟩
  | none =>
  cases dC with
  | some msg => exact ⟨fun h => by simp at h, fun _ => by simp [runMain]⟩
  | none =>
  cases cA with
  | some msg => exact ⟨fun h => by simp at h, fun _ => by simp [runMain]⟩
  | none =>
  cases cB with
  | some msg => exact ⟨fun h => by simp at h, fun _ => by simp [runMain]⟩
  | none =>
  obtain ⟨dev, hdev, -, -, -, hdc⟩ :=
    launch_result ((List.range count).map sinSq) ((List.range count).map cosSq)
      dCI (by simp) (by simp) (le_of_eq hlen.symm)
  have hval : validate ((List.range count).map sinSq)
      ((List.range count).map cosSq) dev.c count = none := by
    rw [validate_eq_none_iff]
    intro i hi
    rw [hdc i hi]
    exact isClose_fin_self _ _ _
  cases kE with
  | some msg => exact ⟨fun h => by simp at h, fun _ => by simp [runMain, hdev]⟩
  | none =>
  cases cC with
  | some msg => exact ⟨fun h => by simp at h, fun _ => by simp [runMain, hdev]⟩
  | none =>
  cases fA with
  | some msg => exact ⟨fun h => by simp at h,
      fun _ => by simp [runMain, hdev, hval]⟩
  | none =>
  cases fB with
  | some msg => exact ⟨fun h => by simp at h,
      fun _ => by simp [runMain, hdev, hval]⟩
  | none =>
  cases fC with
  | some msg => exact ⟨fun h => by simp at h,
      fun _ => by simp [runMain, hdev, hval]⟩
  | none =>
      refine ⟨fun _ => by simp [runMain, hdev, hval], fun h => ?_⟩
      rcases h with h | h | h | h | h | h | h | h | h | h | h | h | h <;>
        simp at h

/-- Witness for C6: the all-success environment really lands in the success
branch — exit 0, only "Done." on standard output, empty standard error —
and the environment whose host allocation of `a` fails really lands in the
failure branch — non-zero exit, empty standard output, one diagnostic. -/
theorem main_output_exit_witness :
    ((runMain ⟨true, true, true, none, none, none, none, none, none, none,
        none, none, none, List.replicate count 0⟩ (fun _ => 0)
        (fun _ => 0)).exitCode = 0 ∧
      (runMain ⟨true, true, true, none, none, none, none, none, none, none,
        none, none, none, List.replicate count 0⟩ (fun _ => 0)
        (fun _ => 0)).stdout = ["Done."] ∧
      (runMain ⟨true, true, true, none, none, none, none, none, none, none,
        none, none, none, List.replicate count 0⟩ (fun _ => 0)
        (fun _ => 0)).stderr = []) ∧
    ((runMain ⟨false, true, true, none, none, none, none, none, none, none,
        none, none, none, List.replicate count 0⟩ (fun _ => 0)
        (fun _ => 0)).exitCode ≠ 0 ∧
      (runMain ⟨false, true, true, none, none, none, none, none, none, none,
        none, none, none, List.replicate count 0⟩ (fun _ => 0)
        (fun _ => 0)).stdout = [] ∧
      (runMain ⟨false, true, true, none, none, none, none, none, none, none,
        none, none, none, List.replicate count 0⟩ (fun _ => 0)
        (fun _ => 0)).stderr.length = 1) :=
  ⟨(main_output_exit ⟨true, true, true, none, none, none, none, none, none,
      none, none, none, none, List.replicate count 0⟩ (fun _ => 0)
      (fun _ => 0) (by simp)).1
      ⟨rfl, rfl, rfl, rfl, rfl, rfl, rfl, rfl, rfl, rfl, rfl, rfl, rfl⟩,
   (main_output_exit ⟨false, true, true, none, none, none, none, none, none,
      none, none, none, none, List.replicate count 0⟩ (fun _ => 0)
      (fun _ => 0) (by simp)).2 (Or.inl rfl)⟩

/-- Claim C7: if the device allocation of vector `b` fails (all earlier
steps succeeding), the run exits non-zero, the single diagnostic names
device vector `b`, and the kernel is never launched. -/
theorem devAllocB_failure (env : Env) (sinSq cosSq : Nat → ℚ) (msg : String)
    (hmA : env.mallocA = true) (hmB : env.mallocB = true)
    (hmC : env.mallocC = true) (hdA : env.devAllocA = none)
    (hdB : env.devAllocB = some msg) :
    (runMain env sinSq cosSq).exitCode ≠ 0 ∧
    (runMain env sinSq cosSq).stderr = [Diag.devAllocFail VecName.b msg] ∧
    Event.kernelLaunch ∉ (runMain env sinSq cosSq).trace := by
  obtain ⟨mA, mB, mC, dA, dB, dC, cA, cB, kE, cC, fA, fB, fC, dCI⟩ := env
  replace hmA : mA = true := hmA
  replace hmB : mB = true := hmB
  replace hmC : mC = true := hmC
  replace hdA : dA = none := hdA
  replace hdB : dB = some msg := hdB
  subst hmA hmB hmC hdA hdB
  refine ⟨by simp [runMain], by simp [runMain], by simp [runMain]⟩

/-- Witness for C7 with a concrete error message. -/
theorem devAllocB_failure_witness :
    (runMain ⟨true, true, true, none, some "oom", none, none, none, none,
        none, none, none, none, []⟩ (fun _ => 0) (fun _ => 0)).exitCode ≠ 0 ∧
    (runMain ⟨true, true, true, none, some "oom", none, none, none, none,
        none, none, none, none, []⟩ (fun _ => 0) (fun _ => 0)).stderr =
      [Diag.devAllocFail VecName.b "oom"] ∧
    Event.kernelLaunch ∉ (runMain ⟨true, true, true, none, some "oom", none,
        none, none, none, none, none, none, none, []⟩ (fun _ => 0)
        (fun _ => 0)).trace :=
  devAllocB_failure _ _ _ "oom" rfl rfl rfl rfl rfl

/-- Claim C8: on every failure path after the first device buffer was
allocated and before the free phase — a later device allocation failure, a
transfer failure, a kernel error, a result copy-back failure (and, vacuously
in this model, a validation failure) — the run exits non-zero without ever
invoking a device free or a host free. -/
theorem failure_no_cleanup (env : Env) (sinSq cosSq : Nat → ℚ)
    (hlen : env.deviceCInit.length = count)
    (hmA : env.mallocA = true) (hmB : env.mallocB = true)
    (hmC : env.mallocC = true) (hdA : env.devAllocA = none)
    (hfail : env.devAllocB ≠ none ∨ env.devAllocC ≠ none ∨ env.copyA ≠ none ∨
      env.copyB ≠ none ∨ env.kernelErr ≠ none ∨ env.copyC ≠ none) :
    (runMain env sinSq cosSq).exitCode ≠ 0 ∧
    ∀ v : VecName, Event.devFree v ∉ (runMain env sinSq cosSq).trace ∧
      Event.hostFree v ∉ (runMain env sinSq cosSq).trace := by
  obtain ⟨mA, mB, mC, dA, dB, dC, cA, cB, kE, cC, fA, fB, fC, dCI⟩ := env
  replace hlen : dCI.length = count := hlen
  replace hmA : mA = true := hmA
  replace hmB : mB = true := hmB
  replace hmC : mC = true := hmC
  replace hdA : dA = none := hdA
  replace hfail : dB ≠ none ∨ dC ≠ none ∨ cA ≠ none ∨ cB ≠ none ∨
      kE ≠ none ∨ cC ≠ none := hfail
  subst hmA hmB hmC hdA
  cases dB with
  | some msg => exact ⟨by simp [runMain], fun v => ⟨by simp [runMain],
      by simp [runMain]⟩⟩
  | none =>
  cases dC with
  | some msg => exact ⟨by simp [runMain], fun v => ⟨by simp [runMain],
      by simp [runMain]⟩⟩
  | none =>
  cases cA with
  | some msg => exact ⟨by simp [runMain], fun v => ⟨by simp [runMain],
      by simp [runMain]⟩⟩
  | none =>
  cases cB with
  | some msg => exact ⟨by simp [runMain], fun v => ⟨by simp [runMain],
      by simp [runMain]⟩⟩
  | none =>
  obtain ⟨dev, hdev, -, -, -, hdc⟩ :=
    launch_result ((List.range count).map sinSq) ((List.range count).map cosSq)
      dCI (by simp) (by simp) (le_of_eq hlen.symm)
  cases kE with
  | some msg => exact ⟨by simp [runMain, hdev], fun v =>
      ⟨by simp [runMain, hdev], by simp [runMain, hdev]⟩⟩
  | none =>
  cases cC with
  | some msg => exact ⟨by simp [runMain, hdev], fun v =>
      ⟨by simp [runMain, hdev], by simp [runMain, hdev]⟩⟩
  | none =>
  rcases hfail with h | h | h | h | h | h <;> exact absurd rfl h

/-- Witness for C8: the device allocation of vector `b` fails. -/
theorem failure_no_cleanup_witness :
    (runMain ⟨true, true, true, none, some "oom", none, none, none, none,
        none, none, none, none, List.replicate count 0⟩ (fun _ => 0)
        (fun _ => 0)).exitCode ≠ 0 ∧
    ∀ v : VecName, Event.devFree v ∉ (runMain ⟨true, true, true, none,
        some "oom", none, none, none, none, none, none, none, none,
        List.replicate count 0⟩ (fun _ => 0) (fun _ => 0)).trace ∧
      Event.hostFree v ∉ (runMain ⟨true, true, true, none, some "oom", none,
        none, none, none, none, none, none, none,
        List.replicate count 0⟩ (fun _ => 0) (fun _ => 0)).trace :=
  failure_no_cleanup _ _ _ (by simp) rfl rfl rfl rfl
    (Or.inl (fun h => Option.noConfusion h))

end CudaExample
